import Mathlib

/-!
Verification of the Cilium mutual-authentication decision engine
(pkg/auth). The wiring in pkg/auth/cell.go is embedded directly; the
behavioral bodies (manager, cache, garbage collector, handlers) are not
part of the provided sources, so they are modelled from the
specification, as marked on each definition.

Machine integers (identities are u32, node ids u16, expirations u64
timestamps) are modelled as Nat: none of the verified properties depend
on overflow behavior, only on equality and ordering of these values.
-/

namespace CiliumAuth

/-- Key identifying one directional authentication relationship, as stored
in the auth map shared with the datapath. -/
structure AuthKey where
  localIdentity : Nat
  remoteIdentity : Nat
  remoteNodeID : Nat
deriving DecidableEq, Repr

/-- Value stored for an auth key: the absolute expiration timestamp. -/
structure AuthMapValue where
  expiration : Nat
deriving DecidableEq, Repr

/-- Auth types selecting the handler variant (cell.go registers handlers
for the mutual and always-fail types; the spec additionally names a null
type). -/
inductive AuthType where
  | nullType
  | alwaysFail
  | mutualType
deriving DecidableEq, Repr

/-- Inbound request unit carried on the signal channel: an auth key plus
the required auth type. -/
structure SignalAuthKey where
  localIdentity : Nat
  remoteIdentity : Nat
  remoteNodeID : Nat
  authType : AuthType
deriving DecidableEq, Repr

/-- Auth key carried by a signal. -/
def SignalAuthKey.key (s : SignalAuthKey) : AuthKey :=
  ⟨s.localIdentity, s.remoteIdentity, s.remoteNodeID⟩

/-- Configuration of the auth cell (cell.go, type config): queue size for
the signal channel and the interval of the expiration garbage collector.
The interval is in nanoseconds, matching Go time.Duration. -/
structure Config where
  MeshAuthQueueSize : Nat
  MeshAuthExpiredGCInterval : Nat
deriving DecidableEq, Repr

/-- Default configuration registered by the cell (cell.go, cell.Config):
queue size 1024 and expired GC interval of 15 minutes. -/
def defaultConfig : Config :=
  { MeshAuthQueueSize := 1024
    MeshAuthExpiredGCInterval := 15 * 60 * 1000000000 }

/-- Names of the command line flags registered by config.Flags
(cell.go). -/
def configFlagNames : List String :=
  ["mesh-auth-queue-size", "mesh-auth-expired-gc-interval"]

/-- Jobs registered with the job group: observers on event streams and
periodic timers with a fixed interval in nanoseconds. -/
inductive Job where
  | observer (jobName : String)
  | timer (jobName : String) (interval : Nat)
deriving DecidableEq, Repr

/-- Bounded channel created for inbound signals; only its capacity is
relevant here. -/
structure SignalChannel where
  capacity : Nat
deriving DecidableEq, Repr

/-- Embeds registerSignalAuthenticationJob (cell.go): makes the signal
channel with capacity config.MeshAuthQueueSize and adds the request
processing observer job. -/
def registerSignalAuthenticationJob (config : Config) : SignalChannel × Job :=
  (⟨config.MeshAuthQueueSize⟩, Job.observer "auth request processing")

/-- Embeds registerGCJobs (cell.go): the identity GC observer is added
only when the CiliumIdentities resource is non-nil, the node GC observer
only when the CiliumNodes resource is non-nil, and the expiration timer
is always added, with interval MeshAuthExpiredGCInterval. The resources
are modelled as options: some means non-nil. -/
def registerGCJobs (ciliumIdentities : Option Unit) (ciliumNodes : Option Unit)
    (config : Config) : List Job :=
  (if ciliumIdentities.isSome then [Job.observer "auth identities gc"] else []) ++
  (if ciliumNodes.isSome then [Job.observer "auth nodes gc"] else []) ++
  [Job.timer "auth expiration gc" config.MeshAuthExpiredGCInterval]

/-- Handler constructors privately provided by the cell (cell.go,
cell.ProvidePrivate): newMutualAuthHandler and newAlwaysFailAuthHandler,
identified by the auth type each one serves. -/
def cellProvidedHandlers : List AuthType :=
  [AuthType.mutualType, AuthType.alwaysFail]

/-- Association list of auth entries, modelling both the in-memory cache
mirror and the persisted auth map store. -/
abbrev Entries := List (AuthKey × AuthMapValue)

/-- Lookup of a key in an entry list: the first binding wins. -/
def lookupKey (k : AuthKey) : Entries → Option AuthMapValue
  | [] => none
  | e :: rest => if e.1 = k then some e.2 else lookupKey k rest

/-- Removal of every binding of a key from an entry list. -/
def removeKey (k : AuthKey) : Entries → Entries
  | [] => []
  | e :: rest => if e.1 = k then removeKey k rest else e :: removeKey k rest

/-- Insertion of a binding, replacing any previous binding of the key. -/
def insertKey (k : AuthKey) (v : AuthMapValue) (m : Entries) : Entries :=
  (k, v) :: removeKey k m

/-- The keys of an entry list are pairwise distinct; this always holds in
the running system because the mirror is a map keyed by AuthKey. -/
def keysNodup (m : Entries) : Prop :=
  (m.map Prod.fst).Nodup

/-- Combined state of the write-through pair: mirror is the in-memory
cache, store the persisted auth map consumed by the datapath. -/
structure AuthMapState where
  mirror : Entries
  store : Entries
deriving DecidableEq, Repr

/-- Fault model of the underlying store: for each operation, none means
the store applies it, some e means the store fails with error e. -/
structure StoreFaults where
  failUpdate : AuthKey → AuthMapValue → Option String
  failDelete : AuthKey → Option String

/-- Fault-free store behavior. -/
def noFaults : StoreFaults :=
  ⟨fun _ _ => none, fun _ => none⟩

/-- Modelled from the spec: AuthMapCache.set (the cache implementation is
not among the provided sources). It writes to the store first and updates
the mirror only when the store update succeeds; on failure it returns the
error of the store and leaves the state unchanged. -/
def cacheSet (f : StoreFaults) (s : AuthMapState) (k : AuthKey) (v : AuthMapValue) :
    Option String × AuthMapState :=
  match f.failUpdate k v with
  | some e => (some e, s)
  | none => (none, ⟨insertKey k v s.mirror, insertKey k v s.store⟩)

/-- Modelled from the spec: AuthMapCache.delete (the cache implementation
is not among the provided sources). It deletes from the store first, then
removes from the mirror, symmetric to set; deleting an absent key is a
no-op, not an error. -/
def cacheDelete (f : StoreFaults) (s : AuthMapState) (k : AuthKey) :
    Option String × AuthMapState :=
  match f.failDelete k with
  | some e => (some e, s)
  | none => (none, ⟨removeKey k s.mirror, removeKey k s.store⟩)

/-- Modelled from the spec: entriesMatching of AuthMapCache, a snapshot
enumeration of the mirror entries satisfying a predicate, used by the
garbage collector sweeps. -/
def entriesMatching (p : AuthKey × AuthMapValue → Bool) (m : Entries) : Entries :=
  m.filter p

/-- Modelled from the spec: the shared effect of the garbage collector
triggers (the collector implementation is not among the provided
sources): enumerate the cached entries matching a predicate and delete
each of them through the fault-free cache delete. -/
def deleteEntriesMatching (p : AuthKey × AuthMapValue → Bool) (s : AuthMapState) :
    AuthMapState :=
  (entriesMatching p s.mirror).foldl (fun st e => (cacheDelete noFaults st e.1).2) s

/-- Modelled from the spec: CleanupExpiredEntries deletes every cached
entry whose expiration is at or before the current time. -/
def CleanupExpiredEntries (now : Nat) (s : AuthMapState) : AuthMapState :=
  deleteEntriesMatching (fun e => decide (e.2.expiration ≤ now)) s

/-- Modelled from the spec: handling a deletion event for a security
identity deletes every cached entry whose local or remote identity equals
the removed identity. -/
def handleIdentityDeletion (i : Nat) (s : AuthMapState) : AuthMapState :=
  deleteEntriesMatching
    (fun e => decide (e.1.localIdentity = i ∨ e.1.remoteIdentity = i)) s

/-- Modelled from the spec: handling a deletion event for a node deletes
every cached entry whose remote node id equals the removed node. -/
def handleNodeDeletion (n : Nat) (s : AuthMapState) : AuthMapState :=
  deleteEntriesMatching (fun e => decide (e.1.remoteNodeID = n)) s

/-- Modelled from the spec: handleCertificateRotationEvent deletes every
cached entry whose local or remote identity equals the rotated identity,
regardless of expiration; it performs no authentication itself. -/
def handleCertificateRotationEvent (i : Nat) (s : AuthMapState) : AuthMapState :=
  deleteEntriesMatching
    (fun e => decide (e.1.localIdentity = i ∨ e.1.remoteIdentity = i)) s

/-- An auth handler: authenticates one key and returns the expiration of
the obtained credential, or an error. -/
abbrev AuthHandler := AuthKey → Except String AuthMapValue

/-- Handler registry resolved per auth type, as provided to the manager. -/
abbrev HandlerMap := AuthType → Option AuthHandler

/-- Modelled from the spec: the always-fail auth handler returns an error
for every input (its implementation is not among the provided sources). -/
def alwaysFailAuthenticate : AuthHandler :=
  fun _ => Except.error "authenticating failed by configuration"

/-- True when the mirror holds an unexpired entry for the key. -/
def liveEntry (now : Nat) (m : Entries) (k : AuthKey) : Bool :=
  match lookupKey k m with
  | some v => decide (now < v.expiration)
  | none => false

/-- Outcome of processing one signal: the resulting cache and store
state, whether authenticate was invoked on a handler, and the reported
error, if any. -/
structure AuthRequestResult where
  state : AuthMapState
  handlerCalled : Bool
  err : Option String
deriving DecidableEq, Repr

/-- Modelled from the spec: the miss path of handleAuthRequest. Resolve
the handler for the auth type of the signal, invoke authenticate; on
success call the cache set with the returned expiration; on failure
report and leave no entry. -/
def authenticateAndUpdate (handlers : HandlerMap) (f : StoreFaults)
    (s : AuthMapState) (sig : SignalAuthKey) : AuthRequestResult :=
  match handlers sig.authType with
  | none => ⟨s, false, some "unknown requested auth type"⟩
  | some h =>
      match h sig.key with
      | Except.error e => ⟨s, true, some e⟩
      | Except.ok v =>
          match cacheSet f s sig.key v with
          | (some e, s2) => ⟨s2, true, some e⟩
          | (none, s2) => ⟨s2, true, none⟩

/-- Modelled from the spec: handleAuthRequest (the manager implementation
is not among the provided sources). Look up the cache; when a live,
unexpired entry exists the signal is a no-op, otherwise authenticate and
update the cache. -/
def handleAuthRequest (handlers : HandlerMap) (f : StoreFaults) (now : Nat)
    (s : AuthMapState) (sig : SignalAuthKey) : AuthRequestResult :=
  if liveEntry now s.mirror sig.key then ⟨s, false, none⟩
  else authenticateAndUpdate handlers f s sig

/-- Steps of the startup sequence built by newManager (cell.go): the
OnStart hook restoring the cache is appended to the lifecycle before the
job group that serves signals. -/
inductive StartupStep where
  | restoreCacheHook
  | startJobs
deriving DecidableEq, Repr

/-- Startup order fixed by newManager (cell.go): the restore hook is
appended first, the job group last. -/
def newManagerStartupOrder : List StartupStep :=
  [StartupStep.restoreCacheHook, StartupStep.startJobs]

/-- Modelled from the spec: the lifecycle runs the appended OnStart hooks
in order and aborts startup at the first failing hook, propagating its
error; restoreFails tells whether restoreCache fails. Returns the steps
run to completion, in execution order. -/
def runStartup (restoreFails : Bool) : List StartupStep → Except String (List StartupStep)
  | [] => Except.ok []
  | StartupStep.restoreCacheHook :: rest =>
      if restoreFails then Except.error "failed to restore auth map cache"
      else (runStartup restoreFails rest).map (fun l => StartupStep.restoreCacheHook :: l)
  | StartupStep.startJobs :: rest =>
      (runStartup restoreFails rest).map (fun l => StartupStep.startJobs :: l)

/-- Startup of the auth cell: run the steps in the order fixed by
newManager. -/
def startAuthCell (restoreFails : Bool) : Except String (List StartupStep) :=
  runStartup restoreFails newManagerStartupOrder

/-- Manager state for the concurrency model: the set of keys with an
authentication in flight and the cache content. -/
structure MgrState where
  pending : List AuthKey
  cache : Entries
deriving DecidableEq, Repr

/-- Events of the concurrency model: arrival of a signal, and completion
of an in-flight authentication with success or failure. -/
inductive MgrEvent where
  | signal (k : AuthKey)
  | finishOk (k : AuthKey) (v : AuthMapValue)
  | finishFail (k : AuthKey)
deriving DecidableEq, Repr

/-- Modelled from the spec: per-key in-flight dedup of the manager. A
signal starts an authentication only when no result is pending for its
key; completion clears the marker and on success writes the cache. The
Bool of the result tells whether authenticate was invoked by the step. -/
def mgrStep (st : MgrState) : MgrEvent → MgrState × Bool
  | MgrEvent.signal k =>
      if k ∈ st.pending then (st, false)
      else (⟨k :: st.pending, st.cache⟩, true)
  | MgrEvent.finishOk k v =>
      (⟨st.pending.filter (fun k2 => k2 != k), insertKey k v st.cache⟩, false)
  | MgrEvent.finishFail k =>
      (⟨st.pending.filter (fun k2 => k2 != k), st.cache⟩, false)

/-- Interleaved execution of the concurrency model on a list of events. -/
def mgrRun (st : MgrState) : List MgrEvent → MgrState
  | [] => st
  | e :: es => mgrRun (mgrStep st e).1 es

/-- Removal of the keys of a list of entries, in order, from an entry
list; the shape the garbage collector sweeps reduce to. -/
def foldRemove (l : Entries) (m : Entries) : Entries :=
  l.foldl (fun m2 e => removeKey e.1 m2) m

section Lemmas

theorem lookupKey_insertKey (k : AuthKey) (v : AuthMapValue) (m : Entries) :
    lookupKey k (insertKey k v m) = some v := by
  simp [insertKey, lookupKey]

theorem lookupKey_removeKey (k k2 : AuthKey) (m : Entries) :
    lookupKey k (removeKey k2 m) = if k = k2 then none else lookupKey k m := by
  induction m with
  | nil => simp [removeKey, lookupKey]
  | cons e rest ih =>
      by_cases h1 : e.1 = k2
      · rw [show removeKey k2 (e :: rest) = removeKey k2 rest from by
          simp [removeKey, h1]]
        rw [ih]
        by_cases h2 : k = k2
        · simp [h2]
        · have h3 : ¬ e.1 = k := fun hh => h2 ((hh.symm.trans h1).symm ▸ rfl)
          simp [lookupKey, h2, h3]
      · rw [show removeKey k2 (e :: rest) = e :: removeKey k2 rest from by
          simp [removeKey, h1]]
        by_cases h2 : e.1 = k
        · have h3 : ¬ k = k2 := fun hh => h1 (h2.trans hh)
          simp [lookupKey, h2, h3]
        · simp [lookupKey, h2, ih]

theorem removeKey_of_lookupKey_none {k : AuthKey} {m : Entries}
    (h : lookupKey k m = none) : removeKey k m = m := by
  induction m with
  | nil => rfl
  | cons e rest ih =>
      by_cases h1 : e.1 = k
      · simp [lookupKey, h1] at h
      · rw [lookupKey, if_neg h1] at h
        simp [removeKey, h1, ih h]

theorem mem_of_lookupKey_eq_some {k : AuthKey} {v : AuthMapValue} {m : Entries}
    (h : lookupKey k m = some v) : (k, v) ∈ m := by
  induction m with
  | nil => simp [lookupKey] at h
  | cons e rest ih =>
      by_cases h1 : e.1 = k
      · rw [lookupKey, if_pos h1] at h
        obtain ⟨a, b⟩ := e
        cases h
        cases h1
        exact List.mem_cons_self _ _
      · rw [lookupKey, if_neg h1] at h
        exact List.mem_cons_of_mem _ (ih h)

theorem keysNodup_unique {m : Entries} {k : AuthKey} {v v2 : AuthMapValue}
    (hn : keysNodup m) (h1 : (k, v) ∈ m) (h2 : (k, v2) ∈ m) : v = v2 := by
  induction m with
  | nil => simp at h1
  | cons e rest ih =>
      rw [keysNodup, List.map_cons, List.nodup_cons] at hn
      rcases List.mem_cons.mp h1 with he1 | ht1 <;>
        rcases List.mem_cons.mp h2 with he2 | ht2
      · exact congrArg Prod.snd (he1.trans he2.symm)
      · have hk : k ∈ rest.map Prod.fst := by
          simpa using List.mem_map_of_mem Prod.fst ht2
        have hek : e.1 = k := (congrArg Prod.fst he1).symm
        rw [hek] at hn
        exact absurd hk hn.1
      · have hk : k ∈ rest.map Prod.fst := by
          simpa using List.mem_map_of_mem Prod.fst ht1
        have hek : e.1 = k := (congrArg Prod.fst he2).symm
        rw [hek] at hn
        exact absurd hk hn.1
      · exact ih hn.2 ht1 ht2

theorem foldDelete_components (l : Entries) (s : AuthMapState) :
    l.foldl (fun st e => (cacheDelete noFaults st e.1).2) s =
      ⟨foldRemove l s.mirror, foldRemove l s.store⟩ := by
  induction l generalizing s with
  | nil => simp [foldRemove]
  | cons e rest ih =>
      rw [List.foldl_cons, ih]
      simp [cacheDelete, noFaults, foldRemove]

theorem lookupKey_foldRemove_of_none {k : AuthKey} (l : Entries) {m : Entries}
    (h : lookupKey k m = none) : lookupKey k (foldRemove l m) = none := by
  induction l generalizing m with
  | nil => exact h
  | cons e rest ih =>
      rw [show foldRemove (e :: rest) m = foldRemove rest (removeKey e.1 m) from rfl]
      apply ih
      rw [lookupKey_removeKey]
      split <;> simp [h]

theorem lookupKey_foldRemove_of_mem {k : AuthKey} (l : Entries) (m : Entries)
    (h : k ∈ l.map Prod.fst) : lookupKey k (foldRemove l m) = none := by
  induction l generalizing m with
  | nil => simp at h
  | cons e rest ih =>
      rw [show foldRemove (e :: rest) m = foldRemove rest (removeKey e.1 m) from rfl]
      rcases List.mem_cons.mp (List.map_cons Prod.fst e rest ▸ h) with hk | hk
      · exact lookupKey_foldRemove_of_none rest
          (by rw [lookupKey_removeKey, if_pos hk])
      · exact ih _ hk

theorem lookupKey_foldRemove_of_not_mem {k : AuthKey} (l : Entries) (m : Entries)
    (h : k ∉ l.map Prod.fst) : lookupKey k (foldRemove l m) = lookupKey k m := by
  induction l generalizing m with
  | nil => rfl
  | cons e rest ih =>
      rw [List.map_cons] at h
      have h1 : ¬ k = e.1 := fun hh => h (hh ▸ List.mem_cons_self _ _)
      have h2 : k ∉ rest.map Prod.fst := fun hh => h (List.mem_cons_of_mem _ hh)
      rw [show foldRemove (e :: rest) m = foldRemove rest (removeKey e.1 m) from rfl]
      rw [ih _ h2, lookupKey_removeKey, if_neg h1]

theorem deleteEntriesMatching_eq (p : AuthKey × AuthMapValue → Bool) (s : AuthMapState) :
    deleteEntriesMatching p s =
      ⟨foldRemove (entriesMatching p s.mirror) s.mirror,
        foldRemove (entriesMatching p s.mirror) s.store⟩ :=
  foldDelete_components _ _

theorem lookup_deleteEntriesMatching_none {p : AuthKey × AuthMapValue → Bool}
    {s : AuthMapState} {k : AuthKey}
    (h : ∀ v, lookupKey k s.mirror = some v → p (k, v) = true) :
    lookupKey k (deleteEntriesMatching p s).mirror = none := by
  rw [deleteEntriesMatching_eq]
  cases hl : lookupKey k s.mirror with
  | none => exact lookupKey_foldRemove_of_none _ hl
  | some v =>
      apply lookupKey_foldRemove_of_mem
      exact List.mem_map_of_mem Prod.fst
        (List.mem_filter.mpr ⟨mem_of_lookupKey_eq_some hl, h v hl⟩)

theorem deleteEntriesMatching_store_eq {p : AuthKey × AuthMapValue → Bool}
    {s : AuthMapState} (h : s.store = s.mirror) :
    (deleteEntriesMatching p s).store = (deleteEntriesMatching p s).mirror := by
  rw [deleteEntriesMatching_eq, h]

theorem lookup_deleteEntriesMatching_preserved {p : AuthKey × AuthMapValue → Bool}
    {s : AuthMapState} {k : AuthKey} {v : AuthMapValue}
    (hn : keysNodup s.mirror) (hl : lookupKey k s.mirror = some v)
    (hp : p (k, v) = false) :
    lookupKey k (deleteEntriesMatching p s).mirror = some v := by
  have hnotmem : k ∉ (entriesMatching p s.mirror).map Prod.fst := by
    intro hmem
    obtain ⟨e, he, hek⟩ := List.mem_map.mp hmem
    have hef := List.mem_filter.mp he
    obtain ⟨a, b⟩ := e
    cases hek
    have hbv : b = v := keysNodup_unique hn hef.1 (mem_of_lookupKey_eq_some hl)
    rw [hbv] at hef
    exact absurd hef.2 (by simp [hp])
  rw [deleteEntriesMatching_eq]
  rw [show (⟨foldRemove (entriesMatching p s.mirror) s.mirror,
      foldRemove (entriesMatching p s.mirror) s.store⟩ : AuthMapState).mirror =
      foldRemove (entriesMatching p s.mirror) s.mirror from rfl]
  rw [lookupKey_foldRemove_of_not_mem _ _ hnotmem]
  exact hl

end Lemmas

/-- Claim C8: the recognized configuration options are the inbound signal
queue size, default 1024, and the periodic expired GC interval, default
15 minutes, and the signal channel is created with exactly the configured
capacity. -/
theorem config_surface_and_channel_capacity :
    configFlagNames = ["mesh-auth-queue-size", "mesh-auth-expired-gc-interval"] ∧
    defaultConfig.MeshAuthQueueSize = 1024 ∧
    defaultConfig.MeshAuthExpiredGCInterval = 15 * 60 * 1000000000 ∧
    ∀ config : Config,
      (registerSignalAuthenticationJob config).1.capacity = config.MeshAuthQueueSize :=
  ⟨rfl, rfl, rfl, fun _ => rfl⟩

/-- Claim C10: registerGCJobs adds the identity deletion observer exactly
when the CiliumIdentities resource is non-nil, the node deletion observer
exactly when the CiliumNodes resource is non-nil, and always adds the
periodic expiration sweep timer. -/
theorem registerGCJobs_conditional_registration :
    ∀ (ids nodes : Option Unit) (config : Config),
      (Job.observer "auth identities gc" ∈ registerGCJobs ids nodes config ↔
        ids.isSome = true) ∧
      (Job.observer "auth nodes gc" ∈ registerGCJobs ids nodes config ↔
        nodes.isSome = true) ∧
      Job.timer "auth expiration gc" config.MeshAuthExpiredGCInterval ∈
        registerGCJobs ids nodes config := by
  intro ids nodes config
  cases ids <;> cases nodes <;>
    simp [registerGCJobs]

/-- Claim C9 counterexample: the cell does not register a handler for the
null auth type; the two provided handler constructors are for the mutual
and always-fail auth types. -/
theorem null_handler_not_registered :
    AuthType.nullType ∉ cellProvidedHandlers := by
  decide

/-- Claim C9 amended: the cell registers the mutual auth handler and the
always-fail auth handler, and the always-fail variant returns an error on
every input. -/
theorem registered_handlers_mutual_and_alwaysFail :
    cellProvidedHandlers = [AuthType.mutualType, AuthType.alwaysFail] ∧
    ∀ k, alwaysFailAuthenticate k =
      Except.error "authenticating failed by configuration" :=
  ⟨rfl, fun _ => rfl⟩

/-- Claim C3: startup runs the cache restore hook to completion before
the job group serving signals starts, and a restore failure aborts
startup with its error, so no signal is ever served. -/
theorem restore_before_signals_and_fatal_on_failure :
    startAuthCell true = Except.error "failed to restore auth map cache" ∧
    ∀ restoreFails executed, startAuthCell restoreFails = Except.ok executed →
      restoreFails = false ∧
      executed = [StartupStep.restoreCacheHook, StartupStep.startJobs] := by
  refine ⟨rfl, ?_⟩
  intro restoreFails executed h
  cases restoreFails with
  | false =>
      refine ⟨rfl, ?_⟩
      rw [show startAuthCell false =
        Except.ok [StartupStep.restoreCacheHook, StartupStep.startJobs] from rfl] at h
      exact (Except.ok.inj h).symm
  | true =>
      exact absurd h (by simp [startAuthCell, newManagerStartupOrder, runStartup])

/-- Claim C2: the cache set writes through the store and updates the
mirror only when the store update succeeds; on failure it returns the
error of the store and leaves mirror and store exactly as before, and
delete behaves symmetrically. -/
theorem cache_write_through (f : StoreFaults) (s : AuthMapState)
    (k : AuthKey) (v : AuthMapValue) :
    (∀ e, f.failUpdate k v = some e → cacheSet f s k v = (some e, s)) ∧
    (f.failUpdate k v = none →
      cacheSet f s k v = (none, ⟨insertKey k v s.mirror, insertKey k v s.store⟩) ∧
      lookupKey k (cacheSet f s k v).2.mirror = some v ∧
      lookupKey k (cacheSet f s k v).2.store = some v) ∧
    (∀ e, f.failDelete k = some e → cacheDelete f s k = (some e, s)) ∧
    (f.failDelete k = none →
      cacheDelete f s k = (none, ⟨removeKey k s.mirror, removeKey k s.store⟩)) := by
  refine ⟨?_, ?_, ?_, ?_⟩
  · intro e he
    simp [cacheSet, he]
  · intro he
    refine ⟨by simp [cacheSet, he], ?_, ?_⟩ <;>
      simp [cacheSet, he, lookupKey_insertKey]
  · intro e he
    simp [cacheDelete, he]
  · intro he
    simp [cacheDelete, he]

/-- Claim C1: a signal is a no-op when the cache holds an unexpired entry
for its key; otherwise the handler resolved for the auth type of the
signal is invoked, on success the cache set is called with the returned
expiration, and on authentication failure no cache entry is written. -/
theorem handleAuthRequest_matches_spec (handlers : HandlerMap) (f : StoreFaults)
    (now : Nat) (s : AuthMapState) (sig : SignalAuthKey) :
    (∀ v, lookupKey sig.key s.mirror = some v → now < v.expiration →
      handleAuthRequest handlers f now s sig = ⟨s, false, none⟩) ∧
    (liveEntry now s.mirror sig.key = false →
      ∀ h, handlers sig.authType = some h →
        (∀ e, h sig.key = Except.error e →
          handleAuthRequest handlers f now s sig = ⟨s, true, some e⟩) ∧
        (∀ v, h sig.key = Except.ok v →
          handleAuthRequest handlers f now s sig =
            ⟨(cacheSet f s sig.key v).2, true, (cacheSet f s sig.key v).1⟩)) := by
  constructor
  · intro v hl hexp
    have hlive : liveEntry now s.mirror sig.key = true := by
      simp [liveEntry, hl, hexp]
    simp [handleAuthRequest, hlive]
  · intro hlive h hh
    have hreq : handleAuthRequest handlers f now s sig =
        authenticateAndUpdate handlers f s sig := by
      simp [handleAuthRequest, hlive]
    constructor
    · intro e herr
      rw [hreq]
      simp [authenticateAndUpdate, hh, herr]
    · intro v hok
      rw [hreq]
      cases hset : cacheSet f s sig.key v with
      | mk r s2 =>
          cases r <;> simp [authenticateAndUpdate, hh, hok, hset]

/-- Claim C7: a signal invokes authenticate only when no result is
pending for its key, an invocation marks the key pending, and the set of
pending keys never holds a key twice, so for every burst of concurrent
signals on one key authenticate runs at most once while a result is
pending for that key. -/
theorem no_duplicate_concurrent_authentication :
    (∀ st k, k ∈ st.pending → mgrStep st (MgrEvent.signal k) = (st, false)) ∧
    (∀ st k, (mgrStep st (MgrEvent.signal k)).2 = true →
      k ∉ st.pending ∧ k ∈ ((mgrStep st (MgrEvent.signal k)).1).pending) ∧
    (∀ st e, st.pending.Nodup → ((mgrStep st e).1).pending.Nodup) ∧
    (∀ events, (mgrRun ⟨[], []⟩ events).pending.Nodup) := by
  have hstep : ∀ (st : MgrState) (e : MgrEvent),
      st.pending.Nodup → ((mgrStep st e).1).pending.Nodup := by
    intro st e hn
    cases e with
    | signal k =>
        by_cases hk : k ∈ st.pending
        · simpa [mgrStep, hk] using hn
        · simpa [mgrStep, hk] using List.Nodup.cons hk hn
    | finishOk k v => exact List.Nodup.filter _ hn
    | finishFail k => exact List.Nodup.filter _ hn
  refine ⟨?_, ?_, hstep, ?_⟩
  · intro st k hk
    simp [mgrStep, hk]
  · intro st k hinv
    by_cases hk : k ∈ st.pending
    · simp [mgrStep, hk] at hinv
    · exact ⟨hk, by simp [mgrStep, hk]⟩
  · intro events
    have hrun : ∀ (st : MgrState), st.pending.Nodup →
        ∀ es : List MgrEvent, (mgrRun st es).pending.Nodup := by
      intro st hn es
      induction es generalizing st with
      | nil => exact hn
      | cons e rest ih => exact ih _ (hstep st e hn)
    exact hrun ⟨[], []⟩ List.nodup_nil events

/-- Claim C4: after the expiration sweep, every entry expired at sweep
time is absent from mirror and store, every unexpired entry is unchanged
in both, deleting an absent key is a no-op rather than an error, and the
sweep timer is registered at the fixed interval
MeshAuthExpiredGCInterval. -/
theorem cleanupExpiredEntries_correct (now : Nat) (s : AuthMapState)
    (hs : s.store = s.mirror) (hn : keysNodup s.mirror) :
    (∀ k v, lookupKey k s.mirror = some v → v.expiration ≤ now →
      lookupKey k (CleanupExpiredEntries now s).mirror = none ∧
      lookupKey k (CleanupExpiredEntries now s).store = none) ∧
    (∀ k v, lookupKey k s.mirror = some v → now < v.expiration →
      lookupKey k (CleanupExpiredEntries now s).mirror = some v ∧
      lookupKey k (CleanupExpiredEntries now s).store = some v) ∧
    (∀ k, lookupKey k s.mirror = none → cacheDelete noFaults s k = (none, s)) ∧
    (∀ ids nodes config,
      Job.timer "auth expiration gc" config.MeshAuthExpiredGCInterval ∈
        registerGCJobs ids nodes config) := by
  have hstore : (CleanupExpiredEntries now s).store =
      (CleanupExpiredEntries now s).mirror := by
    simp only [CleanupExpiredEntries]
    exact deleteEntriesMatching_store_eq hs
  refine ⟨?_, ?_, ?_, ?_⟩
  · intro k v hl hexp
    have hm : lookupKey k (CleanupExpiredEntries now s).mirror = none := by
      simp only [CleanupExpiredEntries]
      refine lookup_deleteEntriesMatching_none (fun v2 hl2 => ?_)
      rw [hl] at hl2
      cases hl2
      simpa using hexp
    exact ⟨hm, by rw [hstore, hm]⟩
  · intro k v hl hexp
    have hm : lookupKey k (CleanupExpiredEntries now s).mirror = some v := by
      simp only [CleanupExpiredEntries]
      refine lookup_deleteEntriesMatching_preserved hn hl ?_
      simpa using Nat.not_le.mpr hexp
    exact ⟨hm, by rw [hstore, hm]⟩
  · intro k hl
    have hl2 : lookupKey k s.store = none := by rw [hs]; exact hl
    rw [show cacheDelete noFaults s k =
      (none, ⟨removeKey k s.mirror, removeKey k s.store⟩) from rfl]
    rw [removeKey_of_lookupKey_none hl, removeKey_of_lookupKey_none hl2]
  · intro ids nodes config
    cases ids <;> cases nodes <;> simp [registerGCJobs]

/-- Witness for claim C4: a sweep at time 10 over a state holding an
entry expired at 5 and an entry expiring at 100 removes the first from
mirror and store and keeps the second. -/
theorem cleanupExpiredEntries_correct_witness :
    lookupKey ⟨1, 2, 3⟩ (CleanupExpiredEntries 10
      ⟨[(⟨1, 2, 3⟩, ⟨5⟩), (⟨4, 5, 6⟩, ⟨100⟩)],
        [(⟨1, 2, 3⟩, ⟨5⟩), (⟨4, 5, 6⟩, ⟨100⟩)]⟩).mirror = none ∧
    lookupKey ⟨4, 5, 6⟩ (CleanupExpiredEntries 10
      ⟨[(⟨1, 2, 3⟩, ⟨5⟩), (⟨4, 5, 6⟩, ⟨100⟩)],
        [(⟨1, 2, 3⟩, ⟨5⟩), (⟨4, 5, 6⟩, ⟨100⟩)]⟩).store = some ⟨100⟩ := by
  have h := cleanupExpiredEntries_correct 10
    ⟨[(⟨1, 2, 3⟩, ⟨5⟩), (⟨4, 5, 6⟩, ⟨100⟩)],
      [(⟨1, 2, 3⟩, ⟨5⟩), (⟨4, 5, 6⟩, ⟨100⟩)]⟩ rfl
    (by unfold keysNodup; decide)
  exact ⟨(h.1 ⟨1, 2, 3⟩ ⟨5⟩ rfl (by decide)).1,
    (h.2.1 ⟨4, 5, 6⟩ ⟨100⟩ rfl (by decide)).2⟩

/-- Claim C5: identity deletion GC removes exactly the entries whose
local or remote identity equals the deleted identity, and node deletion
GC removes exactly the entries whose remote node id equals the deleted
node; all other entries are unchanged in mirror and store. -/
theorem identity_and_node_deletion_gc_exact (i n : Nat) (s : AuthMapState)
    (hs : s.store = s.mirror) (hn : keysNodup s.mirror) :
    (∀ k, (k.localIdentity = i ∨ k.remoteIdentity = i) →
      lookupKey k (handleIdentityDeletion i s).mirror = none ∧
      lookupKey k (handleIdentityDeletion i s).store = none) ∧
    (∀ k v, lookupKey k s.mirror = some v →
      ¬ k.localIdentity = i → ¬ k.remoteIdentity = i →
      lookupKey k (handleIdentityDeletion i s).mirror = some v ∧
      lookupKey k (handleIdentityDeletion i s).store = some v) ∧
    (∀ k, k.remoteNodeID = n →
      lookupKey k (handleNodeDeletion n s).mirror = none ∧
      lookupKey k (handleNodeDeletion n s).store = none) ∧
    (∀ k v, lookupKey k s.mirror = some v → ¬ k.remoteNodeID = n →
      lookupKey k (handleNodeDeletion n s).mirror = some v ∧
      lookupKey k (handleNodeDeletion n s).store = some v) := by
  have hstoreId : (handleIdentityDeletion i s).store =
      (handleIdentityDeletion i s).mirror := by
    simp only [handleIdentityDeletion]
    exact deleteEntriesMatching_store_eq hs
  have hstoreNode : (handleNodeDeletion n s).store =
      (handleNodeDeletion n s).mirror := by
    simp only [handleNodeDeletion]
    exact deleteEntriesMatching_store_eq hs
  refine ⟨?_, ?_, ?_, ?_⟩
  · intro k hk
    have hm : lookupKey k (handleIdentityDeletion i s).mirror = none := by
      simp only [handleIdentityDeletion]
      exact lookup_deleteEntriesMatching_none (fun v _ => by simpa using hk)
    exact ⟨hm, by rw [hstoreId, hm]⟩
  · intro k v hl h1 h2
    have hm : lookupKey k (handleIdentityDeletion i s).mirror = some v := by
      simp only [handleIdentityDeletion]
      exact lookup_deleteEntriesMatching_preserved hn hl (by simp [h1, h2])
    exact ⟨hm, by rw [hstoreId, hm]⟩
  · intro k hk
    have hm : lookupKey k (handleNodeDeletion n s).mirror = none := by
      simp only [handleNodeDeletion]
      exact lookup_deleteEntriesMatching_none (fun v _ => by simpa using hk)
    exact ⟨hm, by rw [hstoreNode, hm]⟩
  · intro k v hl h1
    have hm : lookupKey k (handleNodeDeletion n s).mirror = some v := by
      simp only [handleNodeDeletion]
      exact lookup_deleteEntriesMatching_preserved hn hl (by simp [h1])
    exact ⟨hm, by rw [hstoreNode, hm]⟩

/-- Witness for claim C5: deleting identity 7 removes the entry keyed
(7, 8, 9) and keeps the entry keyed (1, 2, 9); deleting node 9 removes
the entry keyed (1, 2, 9). -/
theorem identity_and_node_deletion_gc_exact_witness :
    lookupKey ⟨7, 8, 9⟩ (handleIdentityDeletion 7
      ⟨[(⟨7, 8, 9⟩, ⟨60⟩), (⟨1, 2, 9⟩, ⟨60⟩)],
        [(⟨7, 8, 9⟩, ⟨60⟩), (⟨1, 2, 9⟩, ⟨60⟩)]⟩).mirror = none ∧
    lookupKey ⟨1, 2, 9⟩ (handleIdentityDeletion 7
      ⟨[(⟨7, 8, 9⟩, ⟨60⟩), (⟨1, 2, 9⟩, ⟨60⟩)],
        [(⟨7, 8, 9⟩, ⟨60⟩), (⟨1, 2, 9⟩, ⟨60⟩)]⟩).mirror = some ⟨60⟩ ∧
    lookupKey ⟨1, 2, 9⟩ (handleNodeDeletion 9
      ⟨[(⟨7, 8, 9⟩, ⟨60⟩), (⟨1, 2, 9⟩, ⟨60⟩)],
        [(⟨7, 8, 9⟩, ⟨60⟩), (⟨1, 2, 9⟩, ⟨60⟩)]⟩).store = none := by
  have h := identity_and_node_deletion_gc_exact 7 9
    ⟨[(⟨7, 8, 9⟩, ⟨60⟩), (⟨1, 2, 9⟩, ⟨60⟩)],
      [(⟨7, 8, 9⟩, ⟨60⟩), (⟨1, 2, 9⟩, ⟨60⟩)]⟩ rfl
    (by unfold keysNodup; decide)
  exact ⟨(h.1 ⟨7, 8, 9⟩ (Or.inl rfl)).1,
    (h.2.1 ⟨1, 2, 9⟩ ⟨60⟩ (by decide) (by decide) (by decide)).1,
    (h.2.2.1 ⟨1, 2, 9⟩ rfl).2⟩

/-- Claim C6: a certificate rotation event for an identity deletes every
cached entry referencing that identity regardless of expiration, changes
no other entry and writes none, and a subsequent signal for such a key
invokes authenticate afresh. -/
theorem certificate_rotation_evicts (i : Nat) (s : AuthMapState)
    (hs : s.store = s.mirror) (hn : keysNodup s.mirror) :
    (∀ k, (k.localIdentity = i ∨ k.remoteIdentity = i) →
      lookupKey k (handleCertificateRotationEvent i s).mirror = none ∧
      lookupKey k (handleCertificateRotationEvent i s).store = none) ∧
    (∀ k, lookupKey k (handleCertificateRotationEvent i s).mirror = none ∨
      lookupKey k (handleCertificateRotationEvent i s).mirror =
        lookupKey k s.mirror) ∧
    (∀ (handlers : HandlerMap) (f : StoreFaults) (now : Nat)
        (sig : SignalAuthKey) (h : AuthHandler),
      (sig.key.localIdentity = i ∨ sig.key.remoteIdentity = i) →
      handlers sig.authType = some h →
      (handleAuthRequest handlers f now
        (handleCertificateRotationEvent i s) sig).handlerCalled = true) := by
  have hdel : ∀ k : AuthKey, (k.localIdentity = i ∨ k.remoteIdentity = i) →
      lookupKey k (handleCertificateRotationEvent i s).mirror = none := by
    intro k hk
    simp only [handleCertificateRotationEvent]
    exact lookup_deleteEntriesMatching_none (fun v _ => by simpa using hk)
  have hstore : (handleCertificateRotationEvent i s).store =
      (handleCertificateRotationEvent i s).mirror := by
    simp only [handleCertificateRotationEvent]
    exact deleteEntriesMatching_store_eq hs
  refine ⟨fun k hk => ⟨hdel k hk, by rw [hstore, hdel k hk]⟩, ?_, ?_⟩
  · intro k
    cases hl : lookupKey k s.mirror with
    | none =>
        left
        simp only [handleCertificateRotationEvent]
        refine lookup_deleteEntriesMatching_none (fun v hv => ?_)
        rw [hl] at hv
        cases hv
    | some v =>
        by_cases hp : k.localIdentity = i ∨ k.remoteIdentity = i
        · exact Or.inl (hdel k hp)
        · right
          simp only [handleCertificateRotationEvent]
          exact lookup_deleteEntriesMatching_preserved hn hl (by simpa using hp)
  · intro handlers f now sig h hk hh
    have hnone := hdel sig.key hk
    have hlive : liveEntry now (handleCertificateRotationEvent i s).mirror
        sig.key = false := by
      simp [liveEntry, hnone]
    rw [handleAuthRequest, if_neg (by simp [hlive])]
    cases hres : h sig.key with
    | error e => simp [authenticateAndUpdate, hh, hres]
    | ok v =>
        rcases hset : cacheSet f (handleCertificateRotationEvent i s) sig.key v
          with ⟨r, s2⟩
        cases r <;> simp [authenticateAndUpdate, hh, hres, hset]

/-- Witness for claim C6: rotating identity 2 removes the unexpired
entry keyed (1, 2, 3), and a later signal for that key calls the
handler. -/
theorem certificate_rotation_evicts_witness :
    lookupKey ⟨1, 2, 3⟩ (handleCertificateRotationEvent 2
      ⟨[(⟨1, 2, 3⟩, ⟨50⟩)], [(⟨1, 2, 3⟩, ⟨50⟩)]⟩).mirror = none ∧
    (handleAuthRequest (fun _ => some alwaysFailAuthenticate) noFaults 0
      (handleCertificateRotationEvent 2
        ⟨[(⟨1, 2, 3⟩, ⟨50⟩)], [(⟨1, 2, 3⟩, ⟨50⟩)]⟩)
      ⟨1, 2, 3, AuthType.alwaysFail⟩).handlerCalled = true := by
  have h := certificate_rotation_evicts 2
    ⟨[(⟨1, 2, 3⟩, ⟨50⟩)], [(⟨1, 2, 3⟩, ⟨50⟩)]⟩ rfl
    (by unfold keysNodup; decide)
  exact ⟨(h.1 ⟨1, 2, 3⟩ (Or.inr rfl)).1,
    h.2.2 (fun _ => some alwaysFailAuthenticate) noFaults 0
      ⟨1, 2, 3, AuthType.alwaysFail⟩ alwaysFailAuthenticate (Or.inr rfl) rfl⟩

end CiliumAuth
